import Mathlib

/-!
Verification of cellnet (hkailee/cellnet), file
cellphonedb/src/core/methods/cpdb_statistical_analysis_helper.py.

The Python code computes over pandas DataFrames of IEEE-754 doubles.  We
embed the float values as an inductive type Flt with NaN and signed
infinities over exact rationals (negative zero is not modelled; no claim
depends on it), and the DataFrames as association lists or as functions
from row/column labels, updated cell by cell exactly as the Python loops
do.  np.log2 on strictly positive finite arguments is kept as an explicit
parameter (l2 : Rat -> Rat): no claim depends on its numeric values there,
only on its NaN / infinity / sign case structure, which is embedded
faithfully.
-/

/-- Python exceptions raised by the embedded code paths. -/
inductive PyErr where
  | valueError : PyErr
  | overflowError : PyErr
  | zeroDivisionError : PyErr
  | unboundLocalError : PyErr
  | keyError : PyErr
deriving DecidableEq, Repr

/-- Embedded IEEE-754 double: NaN, plus infinity, minus infinity, or a
finite value represented exactly as a rational. -/
inductive Flt where
  | nan : Flt
  | pinf : Flt
  | ninf : Flt
  | val : ℚ → Flt
deriving DecidableEq, Repr

namespace Flt

/-- Python and numpy test x != x; here a direct case split. -/
def isnan : Flt → Bool
  | nan => true
  | _ => false

/-- IEEE addition as numpy performs it (NaN absorbs, inf + -inf = NaN). -/
def fadd : Flt → Flt → Flt
  | nan, _ => nan
  | _, nan => nan
  | pinf, ninf => nan
  | pinf, _ => pinf
  | ninf, pinf => nan
  | ninf, _ => ninf
  | val _, pinf => pinf
  | val _, ninf => ninf
  | val a, val b => val (a + b)

/-- IEEE division as numpy performs it on doubles without negative zero:
NaN absorbs, inf/inf = NaN, finite/inf = 0, x/0 is NaN for x = 0 and a
signed infinity otherwise (numpy emits a warning, never raises). -/
def fdiv : Flt → Flt → Flt
  | nan, _ => nan
  | _, nan => nan
  | pinf, pinf => nan
  | pinf, ninf => nan
  | ninf, pinf => nan
  | ninf, ninf => nan
  | pinf, val b => if 0 ≤ b then pinf else ninf
  | ninf, val b => if 0 ≤ b then ninf else pinf
  | val _, pinf => val 0
  | val _, ninf => val 0
  | val a, val b =>
    if b = 0 then
      if a = 0 then nan else if 0 < a then pinf else ninf
    else val (a / b)

/-- IEEE strict greater-than: any comparison with NaN is false. -/
def fgt : Flt → Flt → Bool
  | nan, _ => false
  | _, nan => false
  | pinf, pinf => false
  | pinf, _ => true
  | ninf, _ => false
  | val _, pinf => false
  | val _, ninf => true
  | val a, val b => decide (b < a)

/-- IEEE strict less-than: any comparison with NaN is false. -/
def flt : Flt → Flt → Bool
  | nan, _ => false
  | _, nan => false
  | ninf, ninf => false
  | ninf, _ => true
  | pinf, _ => false
  | val _, ninf => false
  | val _, pinf => true
  | val a, val b => decide (a < b)

/-- IEEE equality test: NaN is equal to nothing, including itself. -/
def feq : Flt → Flt → Bool
  | nan, _ => false
  | _, nan => false
  | pinf, pinf => true
  | ninf, ninf => true
  | val a, val b => decide (a = b)
  | _, _ => false

/-- np.log2 on an embedded double.  On a strictly positive finite argument
the numeric value is taken from the parameter l2; the case structure
(log2 NaN = NaN, log2 of a negative = NaN, log2 0 = -inf, log2 inf = inf,
log2 (-inf) = NaN, all with a warning and never an exception) is numpy's. -/
def flog2 (l2 : ℚ → ℚ) : Flt → Flt
  | nan => nan
  | pinf => pinf
  | ninf => nan
  | val a => if a < 0 then nan else if a = 0 then ninf else val (l2 a)

/-- Rational truncated toward zero, as Python int() does on a float. -/
def qtrunc (q : ℚ) : ℤ := if 0 ≤ q then ⌊q⌋ else ⌈q⌉

/-- Python int() applied to a double: raises ValueError on NaN and
OverflowError on an infinity, otherwise truncates toward zero. -/
def pyInt : Flt → Except PyErr ℤ
  | nan => .error .valueError
  | pinf => .error .overflowError
  | ninf => .error .overflowError
  | val q => .ok (qtrunc q)

/-- pandas Series.mean with the default skipna=True: NaN entries are
dropped; the mean of what remains is NaN when nothing remains, and is
otherwise computed by IEEE summation followed by division by the count. -/
def fmean (xs : List Flt) : Flt :=
  let ys := xs.filter (fun x => !x.isnan)
  if ys.isEmpty then nan
  else fdiv (ys.foldr fadd (val 0)) (val ys.length)

end Flt

example : Flt.fmean [] = Flt.nan := by decide
example : Flt.fmean [Flt.val 1, Flt.nan, Flt.val 2] = Flt.val (3/2) := by
  norm_num [Flt.fmean, Flt.fdiv, Flt.fadd, Flt.isnan, List.filter]
example : Flt.flog2 (fun _ => 0) (Flt.fdiv (Flt.val 1) (Flt.val 0)) = Flt.pinf := by decide

/-!
Label conventions.  Interaction row indices, cluster names, gene
(ensembl) ids and cell ids are embedded as natural-number labels; group
labels stay strings because build_clusters hard-codes the literals tumor
and normal.  A result DataFrame is a function from (row index, column)
to Flt, where a column is the cluster pair itself: the Python code keys
columns by the string A_B built from the pair, which is in one-to-one
correspondence with the pair for the label sets used here.  A DataFrame
cell write result.at[i, c] = v becomes the function update upd.
-/

/-- A result-matrix cell write, embedding result.at[i, c] = v. -/
def upd (f : ℕ → ℕ × ℕ → Flt) (i : ℕ) (c : ℕ × ℕ) (v : Flt) : ℕ → ℕ × ℕ → Flt :=
  fun i2 c2 => if i2 = i ∧ c2 = c then v else f i2 c2

/-- The (row, column) pairs visited by a nested loop over interaction rows
and cluster-pair columns, in Python iteration order. -/
def cellsOf (is : List ℕ) (cps : List (ℕ × ℕ)) : List (ℕ × (ℕ × ℕ)) :=
  is.flatMap (fun i => cps.map (fun cp => (i, cp)))

/-- Embeds get_significant_means (helper lines 11-46).  Starts from a copy
of the real-mean table; for every row index of that table and every column
of the percent table, overwrites the cell with NaN when the percent entry
is strictly greater than the hard-coded min_significant_mean = 0.05; cells
whose percent entry is not greater keep the copied real mean. -/
def get_significant_means (is : List ℕ) (cps : List (ℕ × ℕ))
    (RM RP : ℕ → ℕ × ℕ → Flt) : ℕ → ℕ × ℕ → Flt :=
  (cellsOf is cps).foldl
    (fun f c =>
      if Flt.fgt (RP c.1 c.2) (Flt.val (1/20)) then upd f c.1 c.2 Flt.nan else f)
    RM

/-- An interaction row: its DataFrame index and its ensembl_1 / ensembl_2
gene columns. -/
structure Interaction where
  idx : ℕ
  e1 : ℕ
  e2 : ℕ
deriving DecidableEq, Repr

/-- Embeds cluster_interaction_mean (helper lines 485-504): looks up the
two per-cluster gene means and averages them.  The historical zero veto
is commented out in the source and therefore absent here.  Dictionary and
Series lookups are modelled as total functions from cluster and gene
labels, matching the source under the invariant that every label it asks
for is present. -/
def cluster_interaction_mean (cp : ℕ × ℕ) (interaction : Interaction)
    (clusters_means : ℕ → ℕ → Flt) : Flt :=
  let mean_receptor := clusters_means cp.1 interaction.e1
  let mean_ligand := clusters_means cp.2 interaction.e2
  Flt.fdiv (Flt.fadd mean_receptor mean_ligand) (Flt.val 2)

/-- Embeds mean_analysis (helper lines 179-214): the nested loop writing
cluster_interaction_mean into each (interaction, cluster-pair) cell of a
copy of the base result matrix. -/
def mean_analysis (interactions : List Interaction) (clusters_means : ℕ → ℕ → Flt)
    (cps : List (ℕ × ℕ)) (base : ℕ → ℕ × ℕ → Flt) : ℕ → ℕ × ℕ → Flt :=
  interactions.foldl
    (fun f interaction =>
      cps.foldl
        (fun g cp => upd g interaction.idx cp (cluster_interaction_mean cp interaction clusters_means))
        f)
    base

/-- Embeds the per-cell body of the build_percent_result loop (helper
lines 368-399) together with the Python scoping of the local variable
result_percent, passed in as prev: the value the variable holds from the
previously processed cell, or none at the first cell.  Returns the value
written into the result for this cell, or the exception the body raises. -/
def build_percent_cell (prev : Option ℚ) (real_mean real_percent : Flt)
    (shuffled : List Flt) : Except PyErr ℚ := do
  let ip ← Flt.pyInt real_percent
  if ip = 0 ∨ Flt.feq real_mean (Flt.val 0) then
    pure 1
  else
    let mean_per_pair := shuffled.filter (fun x => !x.isnan)
    if Flt.fgt real_mean (Flt.val 0) then
      if mean_per_pair.length = 0 then throw PyErr.zeroDivisionError
      else pure (((mean_per_pair.countP (fun x => Flt.fgt x real_mean) : ℚ)
        / (mean_per_pair.length : ℚ)) * 2)
    else if Flt.flt real_mean (Flt.val 0) then
      if mean_per_pair.length = 0 then throw PyErr.zeroDivisionError
      else pure (((mean_per_pair.countP (fun x => Flt.flt x real_mean) : ℚ)
        / (mean_per_pair.length : ℚ)) * 2)
    else
      match prev with
      | some p => pure p
      | none => throw PyErr.unboundLocalError

/-- One step of the build_percent_result loop: run the cell body with the
current value of the result_percent variable, then write the value it
leaves in that variable into the result matrix. -/
def bpr_step (RM RP : ℕ → ℕ × ℕ → Flt) (stats : List (ℕ → ℕ × ℕ → Flt))
    (st : (ℕ → ℕ × ℕ → Flt) × Option ℚ) (c : ℕ × (ℕ × ℕ)) :
    Except PyErr ((ℕ → ℕ × ℕ → Flt) × Option ℚ) :=
  match build_percent_cell st.2 (RM c.1 c.2) (RP c.1 c.2)
      (stats.map (fun S => S c.1 c.2)) with
  | .error e => .error e
  | .ok q => .ok (upd st.1 c.1 c.2 (Flt.val q), some q)

/-- Embeds build_percent_result (helper lines 313-402): iterates over
interaction rows and cluster-pair columns in Python order, threading the
result_percent local through the loop; an exception anywhere aborts the
whole call. -/
def build_percent_result (is : List ℕ) (cps : List (ℕ × ℕ))
    (RM RP : ℕ → ℕ × ℕ → Flt) (stats : List (ℕ → ℕ × ℕ → Flt))
    (base : ℕ → ℕ × ℕ → Flt) : Except PyErr (ℕ → ℕ × ℕ → Flt) := do
  let st ← (cellsOf is cps).foldlM (bpr_step RM RP stats) (base, none)
  pure st.1

/-- One row of the meta DataFrame: the cell id (the index) with its
cell_type and group columns. -/
structure MetaRow where
  cell : ℕ
  cell_type : ℕ
  group : String
deriving DecidableEq, Repr

/-- pandas drop_duplicates: keeps the first occurrence of each value, in
order. -/
def dedupFirst {α} [DecidableEq α] (l : List α) : List α :=
  l.foldl (fun acc x => if x ∈ acc then acc else acc ++ [x]) []

/-- The counts DataFrame: one row per gene, each row an association list
from cell id to the expression value for that cell. -/
def CountsDF : Type := List (ℕ × List (ℕ × Flt))

/-- Embeds the cell selection meta[(meta.cell_type == cluster) and
(meta.group == group)].index of build_clusters line 74. -/
def cells_of_group (meta : List MetaRow) (cluster : ℕ) (group : String) : List ℕ :=
  (meta.filter (fun r => r.cell_type = cluster ∧ r.group = group)).map (fun r => r.cell)

/-- Association-list lookup by decidable equality, first match wins, the
uniform model of Python dict and pandas index lookups here. -/
def alookup {α β : Type} [DecidableEq α] : List (α × β) → α → Option β
  | [], _ => none
  | p :: t, k => if k = p.1 then some p.2 else alookup t k

/-- Embeds counts.loc[:, cells] (build_clusters line 75): every gene row
restricted to the selected cells, in selection order. -/
def select_cells (counts : CountsDF) (cells : List ℕ) : List (ℕ × List Flt) :=
  counts.map (fun gr => (gr.1, cells.filterMap (fun c => alookup gr.2 c)))

/-- Embeds cluster_count.apply(mean, axis=1) (build_clusters line 77): the
per-gene mean Series of a selected sub-frame. -/
def cluster_group_mean (counts : CountsDF) (cells : List ℕ) : List (ℕ × Flt) :=
  (select_cells counts cells).map (fun gr => (gr.1, Flt.fmean gr.2))

/-- Series lookup under pandas alignment: a missing index label yields
NaN. -/
def seriesAt (s : List (ℕ × Flt)) (g : ℕ) : Flt := (alookup s g).getD Flt.nan

/-- Embeds np.log2(tumor_means / normal_means) on two aligned Series
(build_clusters line 79): element-wise IEEE division then log2, no
exception possible. -/
def de_series (l2 : ℚ → ℚ) (tumor_means normal_means : List (ℕ × Flt)) :
    List (ℕ × Flt) :=
  tumor_means.map (fun gv => (gv.1, Flt.flog2 l2 (Flt.fdiv gv.2 (seriesAt normal_means gv.1))))

/-- Python dict lookup: a missing key raises KeyError. -/
def dictAt {α β : Type} [DecidableEq α] (d : List (α × β)) (k : α) : Except PyErr β :=
  match alookup d k with
  | some v => .ok v
  | none => .error PyErr.keyError

/-- The structure returned by build_clusters: cluster and group name
lists, the dict of selected count sub-frames keyed by (cluster, group),
and the dict of per-cluster differential mean Series. -/
structure Clusters where
  names : List ℕ
  groups : List String
  countsMap : List ((ℕ × String) × List (ℕ × List Flt))
  means : List (ℕ × List (ℕ × Flt))
deriving Repr

/-- The loop state of build_clusters: the cluster_counts, cluster_means
and cluster_de_means dicts being populated. -/
structure BCState where
  countsAcc : List ((ℕ × String) × List (ℕ × List Flt))
  meansAcc : List ((ℕ × String) × List (ℕ × Flt))
  deAcc : List (ℕ × List (ℕ × Flt))
deriving Repr

/-- The body of the build_clusters outer loop (lines 72-79): populate the
counts and means dicts for every group of this cluster, then look up the
literal tumor and normal entries of the means dict (a KeyError when either
group label is absent from the meta) and store their log2 ratio Series. -/
def build_clusters_step (l2 : ℚ → ℚ) (meta : List MetaRow) (counts : CountsDF)
    (groups : List String) (st : BCState) (cluster : ℕ) : Except PyErr BCState := do
  let tumor_means ← dictAt (st.meansAcc ++ groups.map
    (fun g => ((cluster, g), cluster_group_mean counts (cells_of_group meta cluster g))))
    (cluster, ("tumor"))
  let normal_means ← dictAt (st.meansAcc ++ groups.map
    (fun g => ((cluster, g), cluster_group_mean counts (cells_of_group meta cluster g))))
    (cluster, ("normal"))
  pure ⟨st.countsAcc ++ groups.map
    (fun g => ((cluster, g), select_cells counts (cells_of_group meta cluster g))),
    st.meansAcc ++ groups.map
    (fun g => ((cluster, g), cluster_group_mean counts (cells_of_group meta cluster g))),
    st.deAcc ++ [(cluster, de_series l2 tumor_means normal_means)]⟩

/-- Embeds build_clusters (helper lines 59-84); cluster_names and
group_names are the deduplicated cell_type and group columns. -/
def build_clusters (l2 : ℚ → ℚ) (meta : List MetaRow) (counts : CountsDF) :
    Except PyErr Clusters := do
  let st ← (dedupFirst (meta.map (fun r => r.cell_type))).foldlM
    (build_clusters_step l2 meta counts (dedupFirst (meta.map (fun r => r.group))))
    ⟨[], [], []⟩
  pure ⟨dedupFirst (meta.map (fun r => r.cell_type)),
    dedupFirst (meta.map (fun r => r.group)), st.countsAcc, st.deAcc⟩

/-- Embeds counts_percent (helper lines 460-482) applied to what its
signature declares, a Series of per-cell values for one gene: the fraction
of strictly positive entries, compared strictly against the threshold; an
empty Series raises ZeroDivisionError. -/
def counts_percent (counts : List Flt) (threshold : ℚ) : Except PyErr ℤ :=
  if counts.length = 0 then .error PyErr.zeroDivisionError
  else if ((counts.countP (fun x => Flt.fgt x (Flt.val 0)) : ℚ) / (counts.length : ℚ))
      < threshold then .ok 1
  else .ok 0

/-- Embeds counts_percent as percent_analysis actually invokes it (lines
263-264): the lambda ignores its row argument and passes the whole
(cluster, group) DataFrame, so len(counts) counts gene rows, and the
boolean-DataFrame indexing counts[counts > 0] keeps the row count
unchanged, making the fraction always 1 for a nonempty frame; an empty
frame raises ZeroDivisionError. -/
def counts_percent_on_frame (frame : List (ℕ × List Flt)) (threshold : ℚ) :
    Except PyErr ℤ :=
  if frame.length = 0 then .error PyErr.zeroDivisionError
  else if ((frame.length : ℚ) / (frame.length : ℚ)) < threshold then .ok 1
  else .ok 0

/-- Python bitwise and between the integer flags, which in
percent_analysis only ever take the values 0 and 1. -/
def py_and (a b : ℤ) : ℤ := Int.ofNat (a.toNat &&& b.toNat)

/-- Embeds the percents-calculation loop of percent_analysis (lines
260-266): per cluster, look up the tumor and normal count sub-frames
(KeyError when absent), apply the row lambda over each frame - which
evaluates counts_percent on the whole frame for every gene row - and AND
the two per-group Series element-wise. -/
def percent_analysis_percents (countsMap : List ((ℕ × String) × List (ℕ × List Flt)))
    (names : List ℕ) (threshold : ℚ) :
    Except PyErr (List (ℕ × List (ℕ × ℤ))) :=
  names.foldlM
    (fun acc cluster => do
      let counts_tumor ← dictAt countsMap (cluster, ("tumor"))
      let counts_normal ← dictAt countsMap (cluster, ("normal"))
      let percent_tumor ← counts_tumor.mapM
        (fun gr => do
          let v ← counts_percent_on_frame counts_tumor threshold
          pure (gr.1, v))
      let percent_normal ← counts_normal.mapM
        (fun gr => do
          let v ← counts_percent_on_frame counts_normal threshold
          pure (gr.1, v))
      let both := percent_tumor.map
        (fun gv => (gv.1, py_and gv.2 ((alookup percent_normal gv.1).getD 0)))
      pure (acc ++ [(cluster, both)]))
    []

/-- The per-gene, per-(cluster, group) expression flag that the spec
describes for percent_analysis.  Modelled from the spec: the fraction of
cells in the (cluster, group) subset with strictly positive expression of
the gene must be strictly below the threshold for the flag to be 1, else
0.  This is the Series-typed reading of counts_percent applied to one
gene row, which the actual lambda in percent_analysis fails to do. -/
def percent_flag_spec (row : List Flt) (threshold : ℚ) : Except PyErr ℤ :=
  counts_percent row threshold

/-- swap of two positions of a list, leaving the list unchanged when
either index is out of range. -/
def swapIdx {α} (l : List α) (i j : ℕ) : List α :=
  match l[i]?, l[j]? with
  | some a, some b => (l.set i b).set j a
  | _, _ => l

/-- Embeds np.random.shuffle: the Fisher-Yates loop, for i from n-1 down
to 1 swapping position i with a drawn position j in [0, i].  The random
draws are passed in as a function from i to an arbitrary natural, reduced
modulo i+1. -/
def fisherYates {α} (draws : ℕ → ℕ) : ℕ → List α → List α
  | 0, l => l
  | i + 1, l => fisherYates draws i (swapIdx l (i + 1) (draws (i + 1) % (i + 2)))

/-- np.random.shuffle on a whole column. -/
def np_random_shuffle {α} (draws : ℕ → ℕ) (l : List α) : List α :=
  fisherYates draws (l.length - 1) l

/-- Embeds shuffle_meta (helper lines 49-56): copy the meta, shuffle the
cell_type column in place on the copy, return the copy.  The input value
is untouched; the embedding returns the new meta built from the shuffled
column zipped against the unchanged cell and group columns. -/
def shuffle_meta (draws : ℕ → ℕ) (meta : List MetaRow) : List MetaRow :=
  List.zipWith (fun r ct => ⟨r.cell, ct, r.group⟩) meta
    (np_random_shuffle draws (meta.map (fun r => r.cell_type)))

/-!
Generic lemmas about the cell-writing loops.
-/

theorem upd_same (f : ℕ → ℕ × ℕ → Flt) (i : ℕ) (c : ℕ × ℕ) (v : Flt) :
    upd f i c v i c = v := by
  simp [upd]

theorem upd_other (f : ℕ → ℕ × ℕ → Flt) (i : ℕ) (c : ℕ × ℕ) (v : Flt)
    (i2 : ℕ) (c2 : ℕ × ℕ) (h : ¬(i2 = i ∧ c2 = c)) :
    upd f i c v i2 c2 = f i2 c2 := by
  simp [upd, h]

section WriteFold

variable {β : Type} (key : β → ℕ × (ℕ × ℕ)) (v : β → Flt)

/-- A loop writing a key-determined value into each visited cell. -/
def writeFold (cells : List β) (base : ℕ → ℕ × ℕ → Flt) : ℕ → ℕ × ℕ → Flt :=
  cells.foldl (fun f b => upd f (key b).1 (key b).2 (v b)) base

theorem writeFold_nil (base : ℕ → ℕ × ℕ → Flt) :
    writeFold key v [] base = base := rfl

theorem writeFold_cons (b : β) (cells : List β) (base : ℕ → ℕ × ℕ → Flt) :
    writeFold key v (b :: cells) base
      = writeFold key v cells (upd base (key b).1 (key b).2 (v b)) := rfl

theorem writeFold_preserve (cells : List β) (i : ℕ) (c : ℕ × ℕ)
    (h : ∀ b ∈ cells, key b ≠ (i, c)) (base : ℕ → ℕ × ℕ → Flt) :
    writeFold key v cells base i c = base i c := by
  induction cells generalizing base with
  | nil => rfl
  | cons b t ih =>
    rw [writeFold_cons]
    rw [ih (fun x hx => h x (List.mem_cons_of_mem b hx))]
    apply upd_other
    intro hic
    exact h b (List.mem_cons_self b t) (by cases hic with
      | intro h1 h2 => cases (key b); simp_all)

theorem writeFold_mem (cells : List β) (b0 : β) (hmem : b0 ∈ cells)
    (hnd : (cells.map key).Nodup) (base : ℕ → ℕ × ℕ → Flt) :
    writeFold key v cells base (key b0).1 (key b0).2 = v b0 := by
  induction cells generalizing base with
  | nil => cases hmem
  | cons b t ih =>
    rw [writeFold_cons]
    rcases List.mem_cons.mp hmem with hb | hb
    · subst hb
      have hkey : ∀ x ∈ t, key x ≠ key b0 := by
        intro x hx hk
        have : key b0 ∈ t.map key := hk ▸ List.mem_map_of_mem key hx
        exact (List.nodup_cons.mp hnd).1 this
      rw [writeFold_preserve key v t (key b0).1 (key b0).2
        (fun x hx => by simpa using hkey x hx)]
      exact upd_same base (key b0).1 (key b0).2 (v b0)
    · exact ih hb (List.nodup_cons.mp hnd).2 _

end WriteFold

/-- The nested loop of mean_analysis is the flat write loop over the
product of the interaction rows and the cluster-pair columns. -/
theorem mean_analysis_eq_writeFold (interactions : List Interaction)
    (cm : ℕ → ℕ → Flt) (cps : List (ℕ × ℕ)) (base : ℕ → ℕ × ℕ → Flt) :
    mean_analysis interactions cm cps base
      = writeFold (fun p : Interaction × (ℕ × ℕ) => (p.1.idx, p.2))
          (fun p => cluster_interaction_mean p.2 p.1 cm)
          (interactions.flatMap (fun it => cps.map (fun cp => (it, cp)))) base := by
  induction interactions generalizing base with
  | nil => rfl
  | cons it t ih =>
    have h1 : mean_analysis (it :: t) cm cps base
        = mean_analysis t cm cps
            (cps.foldl (fun g cp => upd g it.idx cp (cluster_interaction_mean cp it cm)) base) := rfl
    rw [h1, ih]
    simp only [List.flatMap_cons, writeFold, List.foldl_append, List.foldl_map]

/-- Membership in the visited cell list. -/
theorem mem_cellsOf (is : List ℕ) (cps : List (ℕ × ℕ)) (i : ℕ) (c : ℕ × ℕ) :
    (i, c) ∈ cellsOf is cps ↔ i ∈ is ∧ c ∈ cps := by
  simp [cellsOf, List.mem_flatMap]

/-- The visited cell list has no duplicates when the row-index list and
the column list have none. -/
theorem cellsOf_nodup (is : List ℕ) (cps : List (ℕ × ℕ))
    (h1 : is.Nodup) (h2 : cps.Nodup) : (cellsOf is cps).Nodup := by
  unfold cellsOf
  rw [List.nodup_flatMap]
  constructor
  · intro i _
    exact h2.map (fun a b hab => by simpa using congrArg Prod.snd hab)
  · apply h1.imp
    intro a b hab
    simp only [Function.onFun, List.disjoint_left]
    intro x hx hx2
    have hba : a = b := by
      rcases List.mem_map.mp hx with ⟨cp, _, rfl⟩
      rcases List.mem_map.mp hx2 with ⟨cp2, _, heq⟩
      simpa using (congrArg Prod.fst heq).symm
    exact hab hba

/-- Cell-level characterization of get_significant_means: inside the
iterated region a cell is NaN exactly when its percent entry is strictly
greater than 0.05, and otherwise holds the copied real mean; outside the
region the copy is untouched. -/
theorem gsm_fold_eq (RP : ℕ → ℕ × ℕ → Flt) (cs : List (ℕ × (ℕ × ℕ)))
    (base : ℕ → ℕ × ℕ → Flt) (i : ℕ) (c : ℕ × ℕ) :
    cs.foldl
      (fun f x =>
        if Flt.fgt (RP x.1 x.2) (Flt.val (1/20)) then upd f x.1 x.2 Flt.nan else f)
      base i c
      = if (i, c) ∈ cs ∧ Flt.fgt (RP i c) (Flt.val (1/20)) then Flt.nan
        else base i c := by
  induction cs generalizing base with
  | nil => simp
  | cons x t ih =>
    rw [List.foldl_cons, ih]
    by_cases hmem : (i, c) ∈ t ∧ Flt.fgt (RP i c) (Flt.val (1/20))
    · rw [if_pos hmem]
      have hall : (i, c) ∈ x :: t ∧ Flt.fgt (RP i c) (Flt.val (1/20)) :=
        ⟨List.mem_cons_of_mem x hmem.1, hmem.2⟩
      rw [if_pos hall]
    · rw [if_neg hmem]
      by_cases hx : (i, c) = x
      · subst hx
        have hmc : (i, c) ∈ (i, c) :: t := List.mem_cons_self (i, c) t
        by_cases hg : Flt.fgt (RP i c) (Flt.val (1/20))
        · rw [if_pos hg, if_pos ⟨hmc, hg⟩, upd_same]
        · rw [if_neg hg, if_neg (fun h => hg h.2)]
      · have hstep :
            (if Flt.fgt (RP x.1 x.2) (Flt.val (1/20)) then upd base x.1 x.2 Flt.nan else base) i c
              = base i c := by
          by_cases hg : Flt.fgt (RP x.1 x.2) (Flt.val (1/20))
          · rw [if_pos hg]
            apply upd_other
            intro hic
            exact hx (by cases x; cases hic; simp_all)
          · rw [if_neg hg]
        rw [hstep]
        have hnot : ¬((i, c) ∈ x :: t ∧ Flt.fgt (RP i c) (Flt.val (1/20))) := by
          intro h
          rcases List.mem_cons.mp h.1 with h1 | h1
          · exact hx h1
          · exact hmem ⟨h1, h.2⟩
        rw [if_neg hnot]

/-!
Lemmas about the exception-threading loop of build_percent_result.
-/

theorem except_bind_error {α β : Type} (e : PyErr) (g : α → Except PyErr β) :
    (Except.error e >>= g) = Except.error e := rfl

theorem except_bind_ok {α β : Type} (a : α) (g : α → Except PyErr β) :
    (Except.ok a >>= g) = g a := rfl

/-- If some visited cell raises no matter what value the result_percent
variable holds, the whole loop raises. -/
theorem bpr_fold_raises (RM RP : ℕ → ℕ × ℕ → Flt) (stats : List (ℕ → ℕ × ℕ → Flt))
    (cs : List (ℕ × (ℕ × ℕ))) (x0 : ℕ × (ℕ × ℕ)) (hmem : x0 ∈ cs)
    (hraise : ∀ p : Option ℚ,
      ∃ e, build_percent_cell p (RM x0.1 x0.2) (RP x0.1 x0.2)
        (stats.map (fun S => S x0.1 x0.2)) = .error e)
    (st : (ℕ → ℕ × ℕ → Flt) × Option ℚ) :
    ∃ e, cs.foldlM (bpr_step RM RP stats) st = Except.error e := by
  induction cs generalizing st with
  | nil => cases hmem
  | cons x t ih =>
    rw [List.foldlM_cons]
    rcases List.mem_cons.mp hmem with hx | hx
    · subst hx
      rcases hraise st.2 with ⟨e, he⟩
      refine ⟨e, ?_⟩
      have hstep : bpr_step RM RP stats st x0 = .error e := by
        unfold bpr_step
        rw [he]
      rw [hstep, except_bind_error]
    · cases hstep : bpr_step RM RP stats st x with
      | error e => exact ⟨e, by rw [except_bind_error]⟩
      | ok st2 =>
        rcases ih hx st2 with ⟨e, he⟩
        exact ⟨e, by simpa using he⟩

/-- If no visited cell has a given key, the loop leaves that cell of the
result matrix untouched. -/
theorem bpr_fold_preserve (RM RP : ℕ → ℕ × ℕ → Flt)
    (stats : List (ℕ → ℕ × ℕ → Flt)) (cs : List (ℕ × (ℕ × ℕ)))
    (i : ℕ) (c : ℕ × ℕ) (hout : ∀ x ∈ cs, x ≠ (i, c))
    (st : (ℕ → ℕ × ℕ → Flt) × Option ℚ) (R : ℕ → ℕ × ℕ → Flt) (pr : Option ℚ)
    (hok : cs.foldlM (bpr_step RM RP stats) st = Except.ok (R, pr)) :
    R i c = st.1 i c := by
  induction cs generalizing st with
  | nil =>
    simp only [List.foldlM_nil] at hok
    cases hok
    rfl
  | cons x t ih =>
    rw [List.foldlM_cons] at hok
    cases hstep : bpr_step RM RP stats st x with
    | error e => rw [hstep, except_bind_error] at hok; cases hok
    | ok st2 =>
      rw [hstep] at hok
      rw [except_bind_ok] at hok
      have hpres := ih (fun y hy => hout y (List.mem_cons_of_mem x hy)) st2 hok
      rw [hpres]
      unfold bpr_step at hstep
      cases hcell : build_percent_cell st.2 (RM x.1 x.2) (RP x.1 x.2)
          (stats.map (fun S => S x.1 x.2)) with
      | error e => rw [hcell] at hstep; cases hstep
      | ok q =>
        rw [hcell] at hstep
        cases hstep
        apply upd_other
        intro heq
        exact hout x (List.mem_cons_self x t) (by cases x; simp_all)

/-- If a visited cell computes the same ok value no matter what the
result_percent variable holds, and no other visited cell shares its key,
then on a successful run the result matrix holds that value there. -/
theorem bpr_fold_cell (RM RP : ℕ → ℕ × ℕ → Flt)
    (stats : List (ℕ → ℕ × ℕ → Flt)) (cs : List (ℕ × (ℕ × ℕ)))
    (x0 : ℕ × (ℕ × ℕ)) (hmem : x0 ∈ cs) (hnd : cs.Nodup) (q : ℚ)
    (hq : ∀ p : Option ℚ,
      build_percent_cell p (RM x0.1 x0.2) (RP x0.1 x0.2)
        (stats.map (fun S => S x0.1 x0.2)) = .ok q)
    (st : (ℕ → ℕ × ℕ → Flt) × Option ℚ) (R : ℕ → ℕ × ℕ → Flt) (pr : Option ℚ)
    (hok : cs.foldlM (bpr_step RM RP stats) st = Except.ok (R, pr)) :
    R x0.1 x0.2 = Flt.val q := by
  induction cs generalizing st with
  | nil => cases hmem
  | cons x t ih =>
    rw [List.foldlM_cons] at hok
    rcases List.mem_cons.mp hmem with hx | hx
    · subst hx
      have hstep : bpr_step RM RP stats st x0
          = .ok (upd st.1 x0.1 x0.2 (Flt.val q), some q) := by
        unfold bpr_step
        rw [hq st.2]
      rw [hstep] at hok
      rw [except_bind_ok] at hok
      have hnotin : ∀ y ∈ t, y ≠ x0 := by
        intro y hy heq
        exact (List.nodup_cons.mp hnd).1 (heq ▸ hy)
      have := bpr_fold_preserve RM RP stats t x0.1 x0.2
        (fun y hy => by
          intro heq
          exact hnotin y hy (by cases x0; simpa using heq)) _ R pr hok
      rw [this]
      exact upd_same st.1 x0.1 x0.2 (Flt.val q)
    · cases hstep : bpr_step RM RP stats st x with
      | error e => rw [hstep, except_bind_error] at hok; cases hok
      | ok st2 =>
        rw [hstep] at hok
        rw [except_bind_ok] at hok
        exact ih hx (List.nodup_cons.mp hnd).2 st2 hok

/-!
Evaluation lemmas for the per-cell body of build_percent_result.
-/

theorem bpc_veto (p : Option ℚ) (rm : Flt) (r : ℚ) (sh : List Flt)
    (h : Flt.qtrunc r = 0 ∨ Flt.feq rm (Flt.val 0) = true) :
    build_percent_cell p rm (Flt.val r) sh = .ok 1 := by
  unfold build_percent_cell
  simp only [Flt.pyInt, except_bind_ok]
  rw [if_pos h]
  rfl

theorem bpc_pos (p : Option ℚ) (m r : ℚ) (sh : List Flt)
    (h1 : Flt.qtrunc r ≠ 0) (h2 : 0 < m)
    (hne : sh.filter (fun x => !x.isnan) ≠ []) :
    build_percent_cell p (Flt.val m) (Flt.val r) sh
      = .ok ((((sh.filter (fun x => !x.isnan)).countP (fun x => Flt.fgt x (Flt.val m)) : ℚ)
          / ((sh.filter (fun x => !x.isnan)).length : ℚ)) * 2) := by
  unfold build_percent_cell
  simp only [Flt.pyInt, except_bind_ok]
  rw [if_neg (by
    intro h
    rcases h with h | h
    · exact h1 h
    · simp only [Flt.feq, decide_eq_true_eq] at h
      exact absurd h (ne_of_gt h2))]
  rw [if_pos (by simp only [Flt.fgt, decide_eq_true_eq]; exact h2)]
  rw [if_neg (by
    intro h
    exact hne (List.length_eq_zero.mp h))]
  rfl

theorem bpc_pos_empty (p : Option ℚ) (m r : ℚ) (sh : List Flt)
    (h1 : Flt.qtrunc r ≠ 0) (h2 : 0 < m)
    (he : sh.filter (fun x => !x.isnan) = []) :
    build_percent_cell p (Flt.val m) (Flt.val r) sh = .error PyErr.zeroDivisionError := by
  unfold build_percent_cell
  simp only [Flt.pyInt, except_bind_ok]
  rw [if_neg (by
    intro h
    rcases h with h | h
    · exact h1 h
    · simp only [Flt.feq, decide_eq_true_eq] at h
      exact absurd h (ne_of_gt h2))]
  rw [if_pos (by simp only [Flt.fgt, decide_eq_true_eq]; exact h2)]
  rw [if_pos (by rw [he]; rfl)]
  rfl

theorem bpc_neg (p : Option ℚ) (m r : ℚ) (sh : List Flt)
    (h1 : Flt.qtrunc r ≠ 0) (h2 : m < 0)
    (hne : sh.filter (fun x => !x.isnan) ≠ []) :
    build_percent_cell p (Flt.val m) (Flt.val r) sh
      = .ok ((((sh.filter (fun x => !x.isnan)).countP (fun x => Flt.flt x (Flt.val m)) : ℚ)
          / ((sh.filter (fun x => !x.isnan)).length : ℚ)) * 2) := by
  unfold build_percent_cell
  simp only [Flt.pyInt, except_bind_ok]
  rw [if_neg (by
    intro h
    rcases h with h | h
    · exact h1 h
    · simp only [Flt.feq, decide_eq_true_eq] at h
      exact absurd h (ne_of_lt h2))]
  rw [if_neg (by simp only [Flt.fgt, decide_eq_true_eq, not_lt]; exact le_of_lt h2)]
  rw [if_pos (by simp only [Flt.flt, decide_eq_true_eq]; exact h2)]
  rw [if_neg (by
    intro h
    exact hne (List.length_eq_zero.mp h))]
  rfl

theorem bpc_neg_empty (p : Option ℚ) (m r : ℚ) (sh : List Flt)
    (h1 : Flt.qtrunc r ≠ 0) (h2 : m < 0)
    (he : sh.filter (fun x => !x.isnan) = []) :
    build_percent_cell p (Flt.val m) (Flt.val r) sh = .error PyErr.zeroDivisionError := by
  unfold build_percent_cell
  simp only [Flt.pyInt, except_bind_ok]
  rw [if_neg (by
    intro h
    rcases h with h | h
    · exact h1 h
    · simp only [Flt.feq, decide_eq_true_eq] at h
      exact absurd h (ne_of_lt h2))]
  rw [if_neg (by simp only [Flt.fgt, decide_eq_true_eq, not_lt]; exact le_of_lt h2)]
  rw [if_pos (by simp only [Flt.flt, decide_eq_true_eq]; exact h2)]
  rw [if_pos (by rw [he]; rfl)]
  rfl

/-- With a NaN real mean and a nonzero percent flag, none of the three
branches runs: the cell keeps whatever the result_percent variable held. -/
theorem bpc_nan_carry (p : Option ℚ) (r : ℚ) (sh : List Flt)
    (h1 : Flt.qtrunc r ≠ 0) :
    build_percent_cell p Flt.nan (Flt.val r) sh
      = match p with
        | some q => .ok q
        | none => .error PyErr.unboundLocalError := by
  unfold build_percent_cell
  simp only [Flt.pyInt, except_bind_ok]
  rw [if_neg (by
    intro h
    rcases h with h | h
    · exact h1 h
    · simp [Flt.feq] at h)]
  rw [if_neg (by simp [Flt.fgt])]
  rw [if_neg (by simp [Flt.flt])]
  cases p <;> rfl

/-!
Destructuring build_percent_result around its loop.
-/

theorem bpr_of_fold_error (is : List ℕ) (cps : List (ℕ × ℕ))
    (RM RP : ℕ → ℕ × ℕ → Flt) (stats : List (ℕ → ℕ × ℕ → Flt))
    (base : ℕ → ℕ × ℕ → Flt) (e : PyErr)
    (h : (cellsOf is cps).foldlM (bpr_step RM RP stats) (base, none) = .error e) :
    build_percent_result is cps RM RP stats base = .error e := by
  unfold build_percent_result
  rw [h]
  rfl

theorem bpr_ok_fold (is : List ℕ) (cps : List (ℕ × ℕ))
    (RM RP : ℕ → ℕ × ℕ → Flt) (stats : List (ℕ → ℕ × ℕ → Flt))
    (base : ℕ → ℕ × ℕ → Flt) (R : ℕ → ℕ × ℕ → Flt)
    (hok : build_percent_result is cps RM RP stats base = .ok R) :
    ∃ pr, (cellsOf is cps).foldlM (bpr_step RM RP stats) (base, none)
      = .ok (R, pr) := by
  unfold build_percent_result at hok
  cases hfold : (cellsOf is cps).foldlM (bpr_step RM RP stats) (base, none) with
  | error e => rw [hfold] at hok; cases hok
  | ok st =>
    rw [hfold] at hok
    cases hok
    exact ⟨st.2, rfl⟩

/-- C1: in build_percent_result, a cell whose real percent flag truncates
to 0 or whose real mean is exactly 0 receives p-value 1.0; any other cell
with a finite real mean receives, on a run without exceptions, the
two-tailed empirical p-value 2 times the count of non-NaN shuffled values
strictly beyond the real mean (greater for a positive mean, less for a
negative mean), divided by the count of non-NaN shuffled values, with no
cap applied, so a value above 1.0 is stored as is. -/
theorem C1_build_percent_result_formula
    (is : List ℕ) (cps : List (ℕ × ℕ)) (RM RP : ℕ → ℕ × ℕ → Flt)
    (stats : List (ℕ → ℕ × ℕ → Flt)) (base : ℕ → ℕ × ℕ → Flt)
    (hisnd : is.Nodup) (hcpsnd : cps.Nodup)
    (i : ℕ) (cp : ℕ × ℕ) (hi : i ∈ is) (hcp : cp ∈ cps)
    (R : ℕ → ℕ × ℕ → Flt)
    (hok : build_percent_result is cps RM RP stats base = .ok R)
    (r m : ℚ) (hrp : RP i cp = Flt.val r) (hrm : RM i cp = Flt.val m) :
    ((Flt.qtrunc r = 0 ∨ m = 0) → R i cp = Flt.val 1)
    ∧ (Flt.qtrunc r ≠ 0 → 0 < m →
        R i cp = Flt.val
          (2 * (((stats.map (fun S => S i cp)).filter (fun x => !x.isnan)).countP
              (fun x => Flt.fgt x (Flt.val m)) : ℚ)
            / (((stats.map (fun S => S i cp)).filter (fun x => !x.isnan)).length : ℚ)))
    ∧ (Flt.qtrunc r ≠ 0 → m < 0 →
        R i cp = Flt.val
          (2 * (((stats.map (fun S => S i cp)).filter (fun x => !x.isnan)).countP
              (fun x => Flt.flt x (Flt.val m)) : ℚ)
            / (((stats.map (fun S => S i cp)).filter (fun x => !x.isnan)).length : ℚ))) := by
  rcases bpr_ok_fold is cps RM RP stats base R hok with ⟨pr, hfold⟩
  have hmem : (i, cp) ∈ cellsOf is cps := (mem_cellsOf is cps i cp).mpr ⟨hi, hcp⟩
  have hnd : (cellsOf is cps).Nodup := cellsOf_nodup is cps hisnd hcpsnd
  refine ⟨?_, ?_, ?_⟩
  · intro hveto
    have hq : ∀ p : Option ℚ,
        build_percent_cell p (RM i cp) (RP i cp)
          (stats.map (fun S => S i cp)) = .ok 1 := by
      intro p
      rw [hrp, hrm]
      apply bpc_veto
      rcases hveto with h | h
      · exact Or.inl h
      · exact Or.inr (by simp [Flt.feq, h])
    exact bpr_fold_cell RM RP stats (cellsOf is cps) (i, cp) hmem hnd 1 hq _ R pr hfold
  · intro htr hpos
    by_cases hemp : (stats.map (fun S => S i cp)).filter (fun x => !x.isnan) = []
    · exfalso
      have hraise : ∀ p : Option ℚ,
          ∃ e, build_percent_cell p (RM i cp) (RP i cp)
            (stats.map (fun S => S i cp)) = .error e := by
        intro p
        rw [hrp, hrm]
        exact ⟨PyErr.zeroDivisionError, bpc_pos_empty p m r _ htr hpos hemp⟩
      rcases bpr_fold_raises RM RP stats (cellsOf is cps) (i, cp) hmem hraise
        (base, none) with ⟨e, he⟩
      rw [he] at hfold
      cases hfold
    · have hq : ∀ p : Option ℚ,
          build_percent_cell p (RM i cp) (RP i cp)
            (stats.map (fun S => S i cp))
            = .ok ((((stats.map (fun S => S i cp)).filter (fun x => !x.isnan)).countP
                  (fun x => Flt.fgt x (Flt.val m)) : ℚ)
               / (((stats.map (fun S => S i cp)).filter (fun x => !x.isnan)).length : ℚ) * 2) := by
        intro p
        rw [hrp, hrm]
        exact bpc_pos p m r _ htr hpos hemp
      have := bpr_fold_cell RM RP stats (cellsOf is cps) (i, cp) hmem hnd _ hq _ R pr hfold
      rw [this]
      congr 1
      ring
  · intro htr hneg
    by_cases hemp : (stats.map (fun S => S i cp)).filter (fun x => !x.isnan) = []
    · exfalso
      have hraise : ∀ p : Option ℚ,
          ∃ e, build_percent_cell p (RM i cp) (RP i cp)
            (stats.map (fun S => S i cp)) = .error e := by
        intro p
        rw [hrp, hrm]
        exact ⟨PyErr.zeroDivisionError, bpc_neg_empty p m r _ htr hneg hemp⟩
      rcases bpr_fold_raises RM RP stats (cellsOf is cps) (i, cp) hmem hraise
        (base, none) with ⟨e, he⟩
      rw [he] at hfold
      cases hfold
    · have hq : ∀ p : Option ℚ,
          build_percent_cell p (RM i cp) (RP i cp)
            (stats.map (fun S => S i cp))
            = .ok ((((stats.map (fun S => S i cp)).filter (fun x => !x.isnan)).countP
                  (fun x => Flt.flt x (Flt.val m)) : ℚ)
               / (((stats.map (fun S => S i cp)).filter (fun x => !x.isnan)).length : ℚ) * 2) := by
        intro p
        rw [hrp, hrm]
        exact bpc_neg p m r _ htr hneg hemp
      have := bpr_fold_cell RM RP stats (cellsOf is cps) (i, cp) hmem hnd _ hq _ R pr hfold
      rw [this]
      congr 1
      ring

/-- Witness for C1: one interaction, one cluster pair, real mean 1 with
percent flag 1, both shuffled means 2 and 3 above the real mean: the
stored p-value is 2, in particular above 1 and not capped. -/
theorem C1_witness :
    upd (fun _ _ => Flt.nan) 0 ((0:ℕ), (0:ℕ))
      (Flt.val (((2:ℕ):ℚ)/((2:ℕ):ℚ)*2)) 0 (0, 0) = Flt.val 2 := by
  have h := C1_build_percent_result_formula [0] [((0:ℕ), (0:ℕ))]
    (fun _ _ => Flt.val 1) (fun _ _ => Flt.val 1)
    [fun _ _ => Flt.val 2, fun _ _ => Flt.val 3] (fun _ _ => Flt.nan)
    (by decide) (by decide) 0 (0, 0) (by decide) (by decide)
    (upd (fun _ _ => Flt.nan) 0 (0, 0) (Flt.val (((2:ℕ):ℚ)/((2:ℕ):ℚ)*2)))
    rfl 1 1 rfl rfl
  have h2 := h.2.1 (by decide) one_pos
  rw [h2]
  norm_num [List.filter, List.countP, List.countP.go, Flt.isnan, Flt.fgt]

/-- C2: a testable cell (percent flag truncating to nonzero, finite
nonzero real mean) whose shuffled means are all NaN makes the cell body
raise ZeroDivisionError, and the whole build_percent_result call surface
an exception instead of returning a table with a NaN or infinite
p-value. -/
theorem C2_empty_null_distribution_raises
    (is : List ℕ) (cps : List (ℕ × ℕ)) (RM RP : ℕ → ℕ × ℕ → Flt)
    (stats : List (ℕ → ℕ × ℕ → Flt)) (base : ℕ → ℕ × ℕ → Flt)
    (i : ℕ) (cp : ℕ × ℕ) (hi : i ∈ is) (hcp : cp ∈ cps)
    (r m : ℚ) (hrp : RP i cp = Flt.val r) (hrm : RM i cp = Flt.val m)
    (htr : Flt.qtrunc r ≠ 0) (hm : m ≠ 0)
    (hall : ∀ x ∈ stats.map (fun S => S i cp), x.isnan = true) :
    build_percent_cell none (Flt.val m) (Flt.val r)
        (stats.map (fun S => S i cp)) = .error PyErr.zeroDivisionError
    ∧ ∃ e, build_percent_result is cps RM RP stats base = Except.error e := by
  have hemp : (stats.map (fun S => S i cp)).filter (fun x => !x.isnan) = [] := by
    rw [List.filter_eq_nil_iff]
    intro a ha
    simp [hall a ha]
  have hcell : ∀ p : Option ℚ, build_percent_cell p (Flt.val m) (Flt.val r)
      (stats.map (fun S => S i cp)) = .error PyErr.zeroDivisionError := by
    intro p
    rcases lt_or_gt_of_ne hm with hneg | hpos
    · exact bpc_neg_empty p m r _ htr hneg hemp
    · exact bpc_pos_empty p m r _ htr hpos hemp
  refine ⟨hcell none, ?_⟩
  have hmem : (i, cp) ∈ cellsOf is cps := (mem_cellsOf is cps i cp).mpr ⟨hi, hcp⟩
  have hraise : ∀ p : Option ℚ,
      ∃ e, build_percent_cell p (RM i cp) (RP i cp)
        (stats.map (fun S => S i cp)) = .error e := by
    intro p
    rw [hrp, hrm]
    exact ⟨PyErr.zeroDivisionError, hcell p⟩
  rcases bpr_fold_raises RM RP stats (cellsOf is cps) (i, cp) hmem hraise
    (base, none) with ⟨e, he⟩
  exact ⟨e, bpr_of_fold_error is cps RM RP stats base e he⟩

/-- Witness for C2: one testable cell whose single shuffled mean is NaN:
the cell raises ZeroDivisionError and the whole call errors out. -/
theorem C2_witness :
    build_percent_cell none (Flt.val 1) (Flt.val 1) [Flt.nan]
        = .error PyErr.zeroDivisionError
    ∧ ∃ e, build_percent_result [0] [((0:ℕ), (0:ℕ))]
        (fun _ _ => Flt.val 1) (fun _ _ => Flt.val 1)
        [fun _ _ => Flt.nan] (fun _ _ => Flt.nan) = Except.error e := by
  exact C2_empty_null_distribution_raises [0] [((0:ℕ), (0:ℕ))]
    (fun _ _ => Flt.val 1) (fun _ _ => Flt.val 1)
    [fun _ _ => Flt.nan] (fun _ _ => Flt.nan)
    0 (0, 0) (by decide) (by decide) 1 1 rfl rfl (by decide) one_ne_zero
    (by decide)

/-- Comparison against a larger positive bound implies comparison against
a smaller one, on embedded doubles. -/
theorem fgt_val_mono (x : Flt) (m1 m2 : ℚ) (h : m1 ≤ m2)
    (hx : Flt.fgt x (Flt.val m2) = true) : Flt.fgt x (Flt.val m1) = true := by
  cases x with
  | nan => simp [Flt.fgt] at hx
  | pinf => simp [Flt.fgt]
  | ninf => simp [Flt.fgt] at hx
  | val a =>
    simp only [Flt.fgt, decide_eq_true_eq] at hx ⊢
    exact lt_of_le_of_lt h hx

/-- C7: with the null distribution fixed and the cell testable, the
p-value computed by the build_percent_result cell body is monotonically
non-increasing in the real mean over strictly positive real means. -/
theorem C7_pvalue_monotone
    (p1 p2 : Option ℚ) (r m1 m2 : ℚ) (sh : List Flt)
    (htr : Flt.qtrunc r ≠ 0) (hm1 : 0 < m1) (h12 : m1 < m2)
    (q1 q2 : ℚ)
    (he1 : build_percent_cell p1 (Flt.val m1) (Flt.val r) sh = .ok q1)
    (he2 : build_percent_cell p2 (Flt.val m2) (Flt.val r) sh = .ok q2) :
    q2 ≤ q1 := by
  by_cases hemp : sh.filter (fun x => !x.isnan) = []
  · rw [bpc_pos_empty p1 m1 r sh htr hm1 hemp] at he1
    cases he1
  · rw [bpc_pos p1 m1 r sh htr hm1 hemp] at he1
    rw [bpc_pos p2 m2 r sh htr (lt_trans hm1 h12) hemp] at he2
    have hq1 : q1 = (((sh.filter (fun x => !x.isnan)).countP
        (fun x => Flt.fgt x (Flt.val m1)) : ℚ)
        / ((sh.filter (fun x => !x.isnan)).length : ℚ)) * 2 := by
      cases he1; rfl
    have hq2 : q2 = (((sh.filter (fun x => !x.isnan)).countP
        (fun x => Flt.fgt x (Flt.val m2)) : ℚ)
        / ((sh.filter (fun x => !x.isnan)).length : ℚ)) * 2 := by
      cases he2; rfl
    rw [hq1, hq2]
    have hcount : (sh.filter (fun x => !x.isnan)).countP
        (fun x => Flt.fgt x (Flt.val m2))
        ≤ (sh.filter (fun x => !x.isnan)).countP
        (fun x => Flt.fgt x (Flt.val m1)) :=
      List.countP_mono_left (fun x _ hx => fgt_val_mono x m1 m2 (le_of_lt h12) hx)
    have hlen : (0:ℚ) < ((sh.filter (fun x => !x.isnan)).length : ℚ) := by
      have : 0 < (sh.filter (fun x => !x.isnan)).length :=
        List.length_pos.mpr hemp
      exact_mod_cast this
    have hcast : ((sh.filter (fun x => !x.isnan)).countP
        (fun x => Flt.fgt x (Flt.val m2)) : ℚ)
        ≤ ((sh.filter (fun x => !x.isnan)).countP
        (fun x => Flt.fgt x (Flt.val m1)) : ℚ) := by exact_mod_cast hcount
    gcongr

/-- Witness for C7: null distribution with values 2 and 3, real means 1
and 2: the p-values 2 and 2 times one half obey the monotonicity. -/
theorem C7_witness : ((1:ℚ)/2*2) ≤ ((2:ℚ)/2*2) := by
  have he1 : build_percent_cell none (Flt.val 1) (Flt.val 1)
      [Flt.val 2, Flt.val 3] = .ok (((2:ℕ):ℚ)/((2:ℕ):ℚ)*2) := rfl
  have he2 : build_percent_cell none (Flt.val 2) (Flt.val 1)
      [Flt.val 2, Flt.val 3] = .ok (((1:ℕ):ℚ)/((2:ℕ):ℚ)*2) := rfl
  have h := C7_pvalue_monotone none none 1 1 2 [Flt.val 2, Flt.val 3]
    (by decide) one_pos one_lt_two _ _ he1 he2
  calc ((1:ℚ)/2*2) = (((1:ℕ):ℚ)/((2:ℕ):ℚ)*2) := by norm_num
  _ ≤ (((2:ℕ):ℚ)/((2:ℕ):ℚ)*2) := h
  _ = ((2:ℚ)/2*2) := by norm_num

/-- C9: a cell with nonzero percent flag and NaN real mean enters none of
the three assignment branches.  At the cell level the body keeps whatever
the result_percent variable held: at the very first cell this raises
UnboundLocalError, later it silently re-writes the previous cell's value.
At the loop level: if the first visited cell is such a cell the whole
build_percent_result call raises UnboundLocalError; and in a run over one
interaction and two cluster-pair columns whose second cell is such a cell,
the second cell of the returned table holds the p-value computed for the
first cell. -/
theorem C9_nan_mean_unbound_or_stale
    (r : ℚ) (htr : Flt.qtrunc r ≠ 0) (p : ℚ) (sh : List Flt)
    (i : ℕ) (cpA cpB : ℕ × ℕ) (is2 : List ℕ) (cps2 : List (ℕ × ℕ))
    (RM RP : ℕ → ℕ × ℕ → Flt) (stats : List (ℕ → ℕ × ℕ → Flt))
    (base : ℕ → ℕ × ℕ → Flt) :
    (build_percent_cell none Flt.nan (Flt.val r) sh
        = .error PyErr.unboundLocalError)
    ∧ (build_percent_cell (some p) Flt.nan (Flt.val r) sh = .ok p)
    ∧ (RM i cpA = Flt.nan → RP i cpA = Flt.val r →
        build_percent_result (i :: is2) (cpA :: cps2) RM RP stats base
          = .error PyErr.unboundLocalError)
    ∧ (∀ qA : ℚ, RM i cpB = Flt.nan → RP i cpB = Flt.val r →
        build_percent_cell none (RM i cpA) (RP i cpA)
          (stats.map (fun S => S i cpA)) = .ok qA →
        ∃ R, build_percent_result [i] [cpA, cpB] RM RP stats base = .ok R
          ∧ R i cpB = Flt.val qA) := by
  refine ⟨bpc_nan_carry none r sh htr, bpc_nan_carry (some p) r sh htr, ?_, ?_⟩
  · intro hrm hrp
    apply bpr_of_fold_error
    have hcells : cellsOf (i :: is2) (cpA :: cps2)
        = (i, cpA) :: (cps2.map (fun cp => (i, cp))
            ++ is2.flatMap (fun j => (cpA :: cps2).map (fun cp => (j, cp)))) := by
      simp [cellsOf]
    rw [hcells, List.foldlM_cons]
    have hstep : bpr_step RM RP stats (base, none) (i, cpA)
        = .error PyErr.unboundLocalError := by
      unfold bpr_step
      rw [show RM (i, cpA).1 (i, cpA).2 = Flt.nan from hrm,
        show RP (i, cpA).1 (i, cpA).2 = Flt.val r from hrp,
        bpc_nan_carry none r _ htr]
    rw [hstep, except_bind_error]
  · intro qA hrmB hrpB hcellA
    have hcells : cellsOf [i] [cpA, cpB] = [(i, cpA), (i, cpB)] := by
      simp [cellsOf]
    have hstepA : bpr_step RM RP stats (base, none) (i, cpA)
        = .ok (upd base i cpA (Flt.val qA), some qA) := by
      unfold bpr_step
      rw [show RM (i, cpA).1 (i, cpA).2 = RM i cpA from rfl,
        show RP (i, cpA).1 (i, cpA).2 = RP i cpA from rfl, hcellA]
    have hstepB : bpr_step RM RP stats (upd base i cpA (Flt.val qA), some qA) (i, cpB)
        = .ok (upd (upd base i cpA (Flt.val qA)) i cpB (Flt.val qA), some qA) := by
      unfold bpr_step
      rw [show RM (i, cpB).1 (i, cpB).2 = Flt.nan from hrmB,
        show RP (i, cpB).1 (i, cpB).2 = Flt.val r from hrpB,
        bpc_nan_carry (some qA) r _ htr]
    refine ⟨upd (upd base i cpA (Flt.val qA)) i cpB (Flt.val qA), ?_, ?_⟩
    · unfold build_percent_result
      rw [hcells, List.foldlM_cons, hstepA, except_bind_ok, List.foldlM_cons,
        hstepB]
      rfl
    · exact upd_same _ i cpB (Flt.val qA)

/-- Witness for C9: percent flag 1 everywhere, NaN real mean at the only
cell of a one-cell run: the whole call raises UnboundLocalError. -/
theorem C9_witness :
    build_percent_result [0] [((0:ℕ), (0:ℕ))] (fun _ _ => Flt.nan)
      (fun _ _ => Flt.val 1) [] (fun _ _ => Flt.nan)
      = .error PyErr.unboundLocalError := by
  exact (C9_nan_mean_unbound_or_stale 1 (by decide) 1 [] 0 (0, 0) (0, 1) [] []
    (fun _ _ => Flt.nan) (fun _ _ => Flt.val 1) [] (fun _ _ => Flt.nan)).2.2.1
    rfl rfl

/-- C6: inside the iterated region, get_significant_means yields NaN at
every cell whose percent entry is strictly greater than the cutoff 0.05,
and otherwise yields exactly the real mean for that cell. -/
theorem C6_significant_means
    (is : List ℕ) (cps : List (ℕ × ℕ)) (RM RP : ℕ → ℕ × ℕ → Flt)
    (i : ℕ) (cp : ℕ × ℕ) (hi : i ∈ is) (hcp : cp ∈ cps) :
    (get_significant_means is cps RM RP i cp
      = if Flt.fgt (RP i cp) (Flt.val (1/20)) then Flt.nan else RM i cp)
    ∧ (∀ q : ℚ, RP i cp = Flt.val q → 1/20 < q →
        get_significant_means is cps RM RP i cp = Flt.nan)
    ∧ (∀ q : ℚ, RP i cp = Flt.val q → q ≤ 1/20 →
        get_significant_means is cps RM RP i cp = RM i cp) := by
  have hmem : (i, cp) ∈ cellsOf is cps := (mem_cellsOf is cps i cp).mpr ⟨hi, hcp⟩
  have hbase : get_significant_means is cps RM RP i cp
      = if Flt.fgt (RP i cp) (Flt.val (1/20)) then Flt.nan else RM i cp := by
    unfold get_significant_means
    rw [gsm_fold_eq RP (cellsOf is cps) RM i cp]
    by_cases hg : Flt.fgt (RP i cp) (Flt.val (1/20))
    · rw [if_pos ⟨hmem, hg⟩, if_pos hg]
    · rw [if_neg (fun h => hg h.2), if_neg hg]
  refine ⟨hbase, ?_, ?_⟩
  · intro q hq hgt
    rw [hbase, hq, if_pos]
    simp only [Flt.fgt, decide_eq_true_eq]
    exact hgt
  · intro q hq hle
    rw [hbase, hq, if_neg]
    simp only [Flt.fgt, decide_eq_true_eq, not_lt]
    exact hle

/-- Witness for C6, the example of the spec: real mean 2 at percent 0.62
is suppressed to NaN, real mean one tenth at percent 0 is kept. -/
theorem C6_witness :
    get_significant_means [0, 1] [((0:ℕ), (0:ℕ))]
      (fun i _ => if i = 0 then Flt.val 2 else Flt.val (1/10))
      (fun i _ => if i = 0 then Flt.val (62/100) else Flt.val 0) 0 (0, 0)
      = Flt.nan
    ∧ get_significant_means [0, 1] [((0:ℕ), (0:ℕ))]
      (fun i _ => if i = 0 then Flt.val 2 else Flt.val (1/10))
      (fun i _ => if i = 0 then Flt.val (62/100) else Flt.val 0) 1 (0, 0)
      = Flt.val (1/10) := by
  constructor
  · exact (C6_significant_means [0, 1] [((0:ℕ), (0:ℕ))] _ _ 0 (0, 0)
      (by decide) (by decide)).2.1 (62/100) rfl (by norm_num)
  · exact (C6_significant_means [0, 1] [((0:ℕ), (0:ℕ))] _ _ 1 (0, 0)
      (by decide) (by decide)).2.2 0 rfl (by norm_num)

/-- C4: every cell written by mean_analysis is the plain arithmetic mean
of the side-1 gene differential mean under the first cluster of the pair
and the side-2 gene differential mean under the second: finite inputs a
and b give (a + b) / 2 with no special case at zero, and a NaN on either
side gives NaN. -/
theorem C4_mean_analysis_cell
    (interactions : List Interaction) (cm : ℕ → ℕ → Flt)
    (cps : List (ℕ × ℕ)) (base : ℕ → ℕ × ℕ → Flt)
    (hidx : (interactions.map Interaction.idx).Nodup) (hcps : cps.Nodup)
    (it : Interaction) (hit : it ∈ interactions) (cp : ℕ × ℕ) (hcp : cp ∈ cps) :
    (mean_analysis interactions cm cps base it.idx cp
      = cluster_interaction_mean cp it cm)
    ∧ (∀ a b : ℚ, cm cp.1 it.e1 = Flt.val a → cm cp.2 it.e2 = Flt.val b →
        cluster_interaction_mean cp it cm = Flt.val ((a + b) / 2))
    ∧ ((cm cp.1 it.e1 = Flt.nan ∨ cm cp.2 it.e2 = Flt.nan) →
        cluster_interaction_mean cp it cm = Flt.nan) := by
  refine ⟨?_, ?_, ?_⟩
  · rw [mean_analysis_eq_writeFold]
    have hmem : (it, cp) ∈ interactions.flatMap
        (fun it2 => cps.map (fun cp2 => (it2, cp2))) := by
      simp only [List.mem_flatMap, List.mem_map]
      exact ⟨it, hit, cp, hcp, rfl⟩
    have hnd : ((interactions.flatMap (fun it2 => cps.map (fun cp2 => (it2, cp2)))).map
        (fun p : Interaction × (ℕ × ℕ) => (p.1.idx, p.2))).Nodup := by
      have heq : (interactions.flatMap (fun it2 => cps.map (fun cp2 => (it2, cp2)))).map
          (fun p : Interaction × (ℕ × ℕ) => (p.1.idx, p.2))
          = cellsOf (interactions.map Interaction.idx) cps := by
        simp only [cellsOf, List.map_flatMap, List.flatMap_map, List.map_map]
        rfl
      rw [heq]
      exact cellsOf_nodup _ cps hidx hcps
    exact writeFold_mem (fun p : Interaction × (ℕ × ℕ) => (p.1.idx, p.2))
      (fun p => cluster_interaction_mean p.2 p.1 cm) _ (it, cp) hmem hnd base
  · intro a b ha hb
    unfold cluster_interaction_mean
    rw [ha, hb]
    show Flt.fdiv (Flt.val (a + b)) (Flt.val 2) = Flt.val ((a + b) / 2)
    simp [Flt.fdiv]
  · intro h
    unfold cluster_interaction_mean
    rcases h with h | h
    · rw [h]
      cases cm cp.2 it.e2 <;> rfl
    · rw [h]
      cases cm cp.1 it.e1 <;> rfl

/-- Witness for C4: side 1 is exactly zero (differential mean 0), side 2
is 3: the score is (0 + 3) / 2, not vetoed to 0. -/
theorem C4_witness :
    mean_analysis [⟨0, 1, 2⟩] (fun _ g => if g = 1 then Flt.val 0 else Flt.val 3)
      [((5:ℕ), (7:ℕ))] (fun _ _ => Flt.nan) 0 (5, 7) = Flt.val ((0 + 3) / 2) := by
  have h := C4_mean_analysis_cell [⟨0, 1, 2⟩]
    (fun _ g => if g = 1 then Flt.val 0 else Flt.val 3)
    [((5:ℕ), (7:ℕ))] (fun _ _ => Flt.nan) (by decide) (by decide)
    ⟨0, 1, 2⟩ (by decide) (5, 7) (by decide)
  rw [h.1]
  exact h.2.1 0 3 rfl rfl

/-!
Permutation lemmas for the Fisher-Yates shuffle.
-/

/-- Pulling the element at position k to the front while planting x at
position k is a permutation of planting x at the front. -/
theorem cons_get_set_perm {α : Type} (t : List α) (k : ℕ) (hk : k < t.length) (x : α) :
    List.Perm ((t.get ⟨k, hk⟩) :: t.set k x) (x :: t) := by
  induction t generalizing k with
  | nil => cases hk
  | cons y u ih =>
    cases k with
    | zero => exact List.Perm.swap x y u
    | succ m =>
      have hm : m < u.length := Nat.lt_of_succ_lt_succ hk
      have h1 : ((y :: u).get ⟨m + 1, hk⟩ :: (y :: u).set (m + 1) x)
          = (u.get ⟨m, hm⟩ :: y :: u.set m x) := rfl
      rw [h1]
      exact ((List.Perm.swap _ _ _).trans ((ih m hm).cons y)).trans
        (List.Perm.swap _ _ _)

/-- The double set performing a swap of positions i and j is a
permutation. -/
theorem set_set_perm {α : Type} (l : List α) (i j : ℕ) (hi : i < l.length)
    (hj : j < l.length) :
    List.Perm ((l.set i (l.get ⟨j, hj⟩)).set j (l.get ⟨i, hi⟩)) l := by
  induction l generalizing i j with
  | nil => cases hi
  | cons x t ih =>
    cases i with
    | zero =>
      cases j with
      | zero => simp
      | succ m =>
        have hm : m < t.length := Nat.lt_of_succ_lt_succ hj
        have h1 : (((x :: t).set 0 ((x :: t).get ⟨m + 1, hj⟩)).set (m + 1)
              ((x :: t).get ⟨0, hi⟩))
            = (t.get ⟨m, hm⟩ :: t.set m x) := rfl
        rw [h1]
        exact cons_get_set_perm t m hm x
    | succ k =>
      have hk : k < t.length := Nat.lt_of_succ_lt_succ hi
      cases j with
      | zero =>
        have h1 : (((x :: t).set (k + 1) ((x :: t).get ⟨0, hj⟩)).set 0
              ((x :: t).get ⟨k + 1, hi⟩))
            = (t.get ⟨k, hk⟩ :: t.set k x) := rfl
        rw [h1]
        exact cons_get_set_perm t k hk x
      | succ m =>
        have hm : m < t.length := Nat.lt_of_succ_lt_succ hj
        exact (ih k m hk hm).cons x

/-- swapIdx permutes the list. -/
theorem swapIdx_perm {α : Type} (l : List α) (i j : ℕ) :
    List.Perm (swapIdx l i j) l := by
  unfold swapIdx
  cases h1 : l[i]? with
  | none =>
    cases h2 : l[j]? <;> exact List.Perm.refl l
  | some a =>
    cases h2 : l[j]? with
    | none => exact List.Perm.refl l
    | some b =>
      rcases List.getElem?_eq_some_iff.mp h1 with ⟨hi, ha⟩
      rcases List.getElem?_eq_some_iff.mp h2 with ⟨hj, hb⟩
      have ha2 : a = l.get ⟨i, hi⟩ := ha.symm
      have hb2 : b = l.get ⟨j, hj⟩ := hb.symm
      rw [ha2, hb2]
      exact set_set_perm l i j hi hj

/-- The Fisher-Yates loop permutes the list. -/
theorem fisherYates_perm {α : Type} (draws : ℕ → ℕ) (n : ℕ) (l : List α) :
    List.Perm (fisherYates draws n l) l := by
  induction n generalizing l with
  | zero => exact List.Perm.refl l
  | succ i ih =>
    exact (ih _).trans (swapIdx_perm l (i + 1) (draws (i + 1) % (i + 2)))

/-- np.random.shuffle permutes the list. -/
theorem np_random_shuffle_perm {α : Type} (draws : ℕ → ℕ) (l : List α) :
    List.Perm (np_random_shuffle draws l) l :=
  fisherYates_perm draws (l.length - 1) l

theorem np_random_shuffle_length {α : Type} (draws : ℕ → ℕ) (l : List α) :
    (np_random_shuffle draws l).length = l.length :=
  (np_random_shuffle_perm draws l).length_eq

/-- Projection of the zip rebuilding the meta: the cell_type column is the
shuffled list. -/
theorem zip_cell_type (meta : List MetaRow) (s : List ℕ)
    (hlen : s.length = meta.length) :
    (List.zipWith (fun (r : MetaRow) ct => (⟨r.cell, ct, r.group⟩ : MetaRow)) meta s).map
      (fun r => r.cell_type) = s := by
  induction meta generalizing s with
  | nil =>
    cases s with
    | nil => rfl
    | cons a u => cases hlen
  | cons r t ih =>
    cases s with
    | nil => cases hlen
    | cons a u =>
      simp only [List.zipWith_cons_cons, List.map_cons]
      rw [ih u (by simpa using hlen)]

/-- Projection of the zip rebuilding the meta, for any column function
insensitive to the replaced cell_type. -/
theorem zip_col {γ : Type} (g : MetaRow → γ)
    (hg : ∀ (r : MetaRow) (ct : ℕ), g ⟨r.cell, ct, r.group⟩ = g r)
    (meta : List MetaRow) (s : List ℕ) (hlen : s.length = meta.length) :
    (List.zipWith (fun (r : MetaRow) ct => (⟨r.cell, ct, r.group⟩ : MetaRow)) meta s).map g
      = meta.map g := by
  induction meta generalizing s with
  | nil => rfl
  | cons r t ih =>
    cases s with
    | nil => cases hlen
    | cons a u =>
      simp only [List.zipWith_cons_cons, List.map_cons]
      rw [ih u (by simpa using hlen), hg]

/-- C8: shuffle_meta returns a meta whose cell_type column is an equal
multiset (a permutation) of the input cell_type column, while the group
column and the cell index column are unchanged row by row; the input
list is a pure value left untouched, matching the copy-then-shuffle of
the source. -/
theorem C8_shuffle_meta_perm (draws : ℕ → ℕ) (meta : List MetaRow) :
    (((shuffle_meta draws meta).map (fun r => r.cell_type) : List ℕ) : Multiset ℕ)
      = ((meta.map (fun r => r.cell_type) : List ℕ) : Multiset ℕ)
    ∧ (shuffle_meta draws meta).map (fun r => r.group)
      = meta.map (fun r => r.group)
    ∧ (shuffle_meta draws meta).map (fun r => r.cell)
      = meta.map (fun r => r.cell) := by
  have hlen : (np_random_shuffle draws (meta.map (fun r => r.cell_type))).length
      = meta.length := by
    rw [np_random_shuffle_length]
    exact List.length_map meta _
  refine ⟨?_, ?_, ?_⟩
  · unfold shuffle_meta
    rw [zip_cell_type meta _ hlen]
    exact Quot.sound (np_random_shuffle_perm draws _)
  · exact zip_col (fun r => r.group) (fun r ct => rfl) meta _ hlen
  · exact zip_col (fun r => r.cell) (fun r ct => rfl) meta _ hlen


/-!
Dictionary and deduplication lemmas for build_clusters.
-/

theorem alookup_append {α β : Type} [DecidableEq α] (k : α) (l1 l2 : List (α × β)) :
    alookup (l1 ++ l2) k
      = match alookup l1 k with
        | some v => some v
        | none => alookup l2 k := by
  induction l1 with
  | nil => simp [alookup]
  | cons p t ih =>
    by_cases h : k = p.1
    · simp [alookup, h]
    · simp only [List.cons_append, alookup, if_neg h]
      exact ih

theorem alookup_map_group_some {β : Type} (gs : List String) (cl : ℕ) (g0 : String)
    (f : String → β) (h : g0 ∈ gs) :
    alookup (gs.map (fun g => ((cl, g), f g))) (cl, g0) = some (f g0) := by
  induction gs with
  | nil => cases h
  | cons g t ih =>
    rcases List.mem_cons.mp h with rfl | hmem
    · simp [alookup]
    · by_cases hg : g0 = g
      · subst hg
        simp [alookup]
      · have hne : ((cl, g0) : ℕ × String) ≠ (cl, g) := by
          intro hc
          exact hg (by cases hc; rfl)
        simp only [List.map_cons, alookup, if_neg hne]
        exact ih hmem

theorem alookup_map_group_none {β : Type} (gs : List String) (cl : ℕ) (g0 : String)
    (f : String → β) (h : g0 ∉ gs) :
    alookup (gs.map (fun g => ((cl, g), f g))) (cl, g0) = none := by
  induction gs with
  | nil => rfl
  | cons g t ih =>
    have hg : g0 ≠ g := fun hc => h (hc ▸ List.mem_cons_self g t)
    have hne : ((cl, g0) : ℕ × String) ≠ (cl, g) := by
      intro hc
      exact hg (by cases hc; rfl)
    simp only [List.map_cons, alookup, if_neg hne]
    exact ih (fun hm => h (List.mem_cons_of_mem g hm))

theorem mem_dedupFirst {α : Type} [DecidableEq α] (l : List α) (x : α) :
    x ∈ dedupFirst l ↔ x ∈ l := by
  have haux : ∀ (t : List α) (acc : List α),
      x ∈ t.foldl (fun acc y => if y ∈ acc then acc else acc ++ [y]) acc
        ↔ x ∈ acc ∨ x ∈ t := by
    intro t
    induction t with
    | nil => simp
    | cons y u ih =>
      intro acc
      simp only [List.foldl_cons]
      by_cases hy : y ∈ acc
      · rw [if_pos hy, ih]
        constructor
        · rintro (h | h)
          · exact Or.inl h
          · exact Or.inr (List.mem_cons_of_mem y h)
        · rintro (h | h)
          · exact Or.inl h
          · rcases List.mem_cons.mp h with rfl | h2
            · exact Or.inl hy
            · exact Or.inr h2
      · rw [if_neg hy, ih]
        simp only [List.mem_append, List.mem_singleton, List.mem_cons]
        tauto
  unfold dedupFirst
  rw [haux l []]
  simp

theorem dedupFirst_nodup {α : Type} [DecidableEq α] (l : List α) :
    (dedupFirst l).Nodup := by
  have haux : ∀ (t : List α) (acc : List α), acc.Nodup →
      (t.foldl (fun acc y => if y ∈ acc then acc else acc ++ [y]) acc).Nodup := by
    intro t
    induction t with
    | nil => exact fun acc h => h
    | cons y u ih =>
      intro acc hacc
      simp only [List.foldl_cons]
      by_cases hy : y ∈ acc
      · rw [if_pos hy]
        exact ih acc hacc
      · rw [if_neg hy]
        apply ih
        rw [List.nodup_append]
        exact ⟨hacc, List.nodup_singleton y,
          by simpa [List.disjoint_singleton] using hy⟩
  exact haux l [] List.nodup_nil

/-- The per-iteration behavior of the build_clusters loop: with the
literal tumor and normal labels both among the groups the step succeeds
and appends this cluster's log2(tumor/normal) Series; with either label
missing the step raises KeyError. -/
theorem build_clusters_step_ok (l2 : ℚ → ℚ) (meta : List MetaRow)
    (counts : CountsDF) (groups : List String) (st : BCState) (cl : ℕ)
    (hnone : ∀ g : String, alookup st.meansAcc (cl, g) = none) :
    (("tumor") ∈ groups → ("normal") ∈ groups →
      build_clusters_step l2 meta counts groups st cl
        = .ok ⟨st.countsAcc ++ groups.map
            (fun g => ((cl, g), select_cells counts (cells_of_group meta cl g))),
          st.meansAcc ++ groups.map
            (fun g => ((cl, g), cluster_group_mean counts (cells_of_group meta cl g))),
          st.deAcc ++ [(cl, de_series l2
            (cluster_group_mean counts (cells_of_group meta cl ("tumor")))
            (cluster_group_mean counts (cells_of_group meta cl ("normal"))))]⟩)
    ∧ (((("tumor") ∉ groups) ∨ (("normal") ∉ groups)) →
      build_clusters_step l2 meta counts groups st cl = .error PyErr.keyError) := by
  have hdict : ∀ g0 : String,
      dictAt (st.meansAcc ++ groups.map
        (fun g => ((cl, g), cluster_group_mean counts (cells_of_group meta cl g))))
        (cl, g0)
      = if g0 ∈ groups
        then .ok (cluster_group_mean counts (cells_of_group meta cl g0))
        else .error PyErr.keyError := by
    intro g0
    unfold dictAt
    rw [alookup_append, hnone g0]
    by_cases hmem : g0 ∈ groups
    · rw [alookup_map_group_some groups cl g0 _ hmem, if_pos hmem]
    · rw [alookup_map_group_none groups cl g0 _ hmem, if_neg hmem]
  constructor
  · intro ht hn
    unfold build_clusters_step
    rw [hdict ("tumor"), if_pos ht, except_bind_ok, hdict ("normal"), if_pos hn,
      except_bind_ok]
    rfl
  · intro hmiss
    unfold build_clusters_step
    by_cases ht : ("tumor") ∈ groups
    · have hn : ("normal") ∉ groups := by
        rcases hmiss with h | h
        · exact absurd ht h
        · exact h
      rw [hdict ("tumor"), if_pos ht, except_bind_ok, hdict ("normal"), if_neg hn]
      rfl
    · rw [hdict ("tumor"), if_neg ht]
      rfl

theorem alookup_map_cluster_none {β : Type} (gs : List String) (cl c2 : ℕ)
    (g0 : String) (f : String → β) (h : c2 ≠ cl) :
    alookup (gs.map (fun g => ((cl, g), f g))) (c2, g0) = none := by
  induction gs with
  | nil => rfl
  | cons g t ih =>
    have hne : ((c2, g0) : ℕ × String) ≠ (cl, g) := by
      intro hc
      exact h (by cases hc; rfl)
    simp only [List.map_cons, alookup, if_neg hne]
    exact ih

/-- Over clusters not yet seen, the build_clusters loop succeeds when both
literal group labels are present, and appends one log2(tumor/normal)
Series per cluster, in order. -/
theorem bc_fold_ok (l2 : ℚ → ℚ) (meta : List MetaRow) (counts : CountsDF)
    (groups : List String) (ht : ("tumor") ∈ groups) (hn : ("normal") ∈ groups)
    (names : List ℕ) (hnd : names.Nodup) :
    ∀ st : BCState, (∀ c ∈ names, ∀ g : String, alookup st.meansAcc (c, g) = none) →
    ∃ st2, names.foldlM (build_clusters_step l2 meta counts groups) st = .ok st2
      ∧ st2.deAcc = st.deAcc ++ names.map (fun c => (c, de_series l2
          (cluster_group_mean counts (cells_of_group meta c ("tumor")))
          (cluster_group_mean counts (cells_of_group meta c ("normal"))))) := by
  induction names with
  | nil => exact fun st _ => ⟨st, rfl, by simp⟩
  | cons c t ih =>
    intro st hnone
    have hstep := (build_clusters_step_ok l2 meta counts groups st c
      (hnone c (List.mem_cons_self c t))).1 ht hn
    have hnone2 : ∀ c2 ∈ t, ∀ g : String,
        alookup ((⟨st.countsAcc ++ groups.map
            (fun g => ((c, g), select_cells counts (cells_of_group meta c g))),
          st.meansAcc ++ groups.map
            (fun g => ((c, g), cluster_group_mean counts (cells_of_group meta c g))),
          st.deAcc ++ [(c, de_series l2
            (cluster_group_mean counts (cells_of_group meta c ("tumor")))
            (cluster_group_mean counts (cells_of_group meta c ("normal"))))]⟩ : BCState)).meansAcc
          (c2, g) = none := by
      intro c2 hc2 g
      show alookup (st.meansAcc ++ groups.map
        (fun g => ((c, g), cluster_group_mean counts (cells_of_group meta c g))))
        (c2, g) = none
      rw [alookup_append, hnone c2 (List.mem_cons_of_mem c hc2) g]
      have hne : c2 ≠ c := by
        intro hc
        exact (List.nodup_cons.mp hnd).1 (hc ▸ hc2)
      rw [alookup_map_cluster_none groups c c2 g _ hne]
    rcases ih (List.nodup_cons.mp hnd).2 _ hnone2 with ⟨st2, hf, hde⟩
    refine ⟨st2, ?_, ?_⟩
    · rw [List.foldlM_cons, hstep, except_bind_ok, hf]
    · rw [hde]
      simp

/-- With a cluster to process and either literal label missing, the
build_clusters loop raises KeyError at its first iteration. -/
theorem bc_fold_fail (l2 : ℚ → ℚ) (meta : List MetaRow) (counts : CountsDF)
    (groups : List String) (hmiss : (("tumor") ∉ groups) ∨ (("normal") ∉ groups))
    (c : ℕ) (t : List ℕ) (st : BCState)
    (hnone : ∀ g : String, alookup st.meansAcc (c, g) = none) :
    (c :: t).foldlM (build_clusters_step l2 meta counts groups) st
      = .error PyErr.keyError := by
  have hstep := (build_clusters_step_ok l2 meta counts groups st c hnone).2 hmiss
  rw [List.foldlM_cons, hstep, except_bind_error]

/-- C10, amended: build_clusters succeeds exactly when there is no cluster
to process or both literal labels tumor and normal occur in the group
column; every failure is a KeyError; and on success the differential-mean
dict maps every cluster, in first-appearance order, to the
log2(tumor-group means / normal-group means) Series, the group pair being
hard-coded and independent of any caller choice. -/
theorem C10_build_clusters_tumor_normal (l2 : ℚ → ℚ) (meta : List MetaRow)
    (counts : CountsDF) :
    ((∃ cl, build_clusters l2 meta counts = Except.ok cl)
      ↔ (dedupFirst (meta.map (fun r => r.cell_type)) = []
          ∨ ((("tumor") ∈ meta.map (fun r => r.group))
              ∧ (("normal") ∈ meta.map (fun r => r.group)))))
    ∧ (∀ e, build_clusters l2 meta counts = .error e → e = PyErr.keyError)
    ∧ (∀ cl, build_clusters l2 meta counts = Except.ok cl →
        cl.means = (dedupFirst (meta.map (fun r => r.cell_type))).map
          (fun c => (c, de_series l2
            (cluster_group_mean counts (cells_of_group meta c ("tumor")))
            (cluster_group_mean counts (cells_of_group meta c ("normal")))))) := by
  have hgroups : ∀ g : String,
      g ∈ dedupFirst (meta.map (fun r => r.group)) ↔ g ∈ meta.map (fun r => r.group) :=
    fun g => mem_dedupFirst _ g
  by_cases hnames : dedupFirst (meta.map (fun r => r.cell_type)) = []
  · refine ⟨?_, ?_, ?_⟩
    · refine ⟨fun _ => Or.inl hnames, fun _ => ?_⟩
      refine ⟨⟨dedupFirst (meta.map (fun r => r.cell_type)),
        dedupFirst (meta.map (fun r => r.group)), [], []⟩, ?_⟩
      unfold build_clusters
      rw [hnames]
      rfl
    · intro e he
      unfold build_clusters at he
      rw [hnames] at he
      cases he
    · intro cl hcl
      unfold build_clusters at hcl
      rw [hnames] at hcl
      cases hcl
      rw [hnames]
      rfl
  · by_cases hboth : (("tumor") ∈ meta.map (fun r => r.group))
        ∧ (("normal") ∈ meta.map (fun r => r.group))
    · have ht := (hgroups ("tumor")).mpr hboth.1
      have hn := (hgroups ("normal")).mpr hboth.2
      rcases bc_fold_ok l2 meta counts _ ht hn _
        (dedupFirst_nodup (meta.map (fun r => r.cell_type)))
        ⟨[], [], []⟩ (fun _ _ _ => rfl) with ⟨st2, hf, hde⟩
      refine ⟨?_, ?_, ?_⟩
      · refine ⟨fun _ => Or.inr hboth, fun _ => ?_⟩
        refine ⟨⟨dedupFirst (meta.map (fun r => r.cell_type)),
          dedupFirst (meta.map (fun r => r.group)), st2.countsAcc, st2.deAcc⟩, ?_⟩
        unfold build_clusters
        rw [hf]
        rfl
      · intro e he
        unfold build_clusters at he
        rw [hf] at he
        cases he
      · intro cl hcl
        unfold build_clusters at hcl
        rw [hf] at hcl
        cases hcl
        rw [hde]
        simp
    · have hmiss : (("tumor") ∉ dedupFirst (meta.map (fun r => r.group)))
          ∨ (("normal") ∉ dedupFirst (meta.map (fun r => r.group))) := by
        by_cases ht : ("tumor") ∈ meta.map (fun r => r.group)
        · refine Or.inr ?_
          rw [hgroups]
          intro hn
          exact hboth ⟨ht, hn⟩
        · refine Or.inl ?_
          rw [hgroups]
          exact ht
      rcases List.exists_cons_of_ne_nil hnames with ⟨c, t, hct⟩
      have hfail := bc_fold_fail l2 meta counts _ hmiss c t ⟨[], [], []⟩
        (fun _ => rfl)
      refine ⟨?_, ?_, ?_⟩
      · refine ⟨?_, ?_⟩
        · rintro ⟨cl, hcl⟩
          unfold build_clusters at hcl
          rw [hct, hfail] at hcl
          cases hcl
        · rintro (h | h)
          · exact absurd h hnames
          · exact absurd h hboth
      · intro e he
        unfold build_clusters at he
        rw [hct, hfail] at he
        cases he
        rfl
      · intro cl hcl
        unfold build_clusters at hcl
        rw [hct, hfail] at hcl
        cases hcl

/-- Counterexample to C10 as stated: metadata whose group labels are
tumor, normal and other - not exactly the two names - on which
build_clusters nevertheless succeeds instead of raising a key-lookup
error. -/
theorem C10_counterexample :
    (∃ cl, build_clusters (fun _ => 0)
      [⟨0, 0, ("tumor")⟩, ⟨1, 0, ("normal")⟩, ⟨2, 0, ("other")⟩] []
        = Except.ok cl)
    ∧ dedupFirst (([⟨0, 0, ("tumor")⟩, ⟨1, 0, ("normal")⟩,
        ⟨2, 0, ("other")⟩] : List MetaRow).map (fun r => r.group))
      = [("tumor"), ("normal"), ("other")] := by
  exact ⟨⟨_, rfl⟩, rfl⟩

/-- Witness for C10: with both literal labels present the call succeeds. -/
theorem C10_witness :
    ∃ cl, build_clusters (fun _ => 0)
      [⟨0, 0, ("tumor")⟩, ⟨1, 0, ("normal")⟩] [] = Except.ok cl := by
  exact (C10_build_clusters_tumor_normal (fun _ => 0)
    [⟨0, 0, ("tumor")⟩, ⟨1, 0, ("normal")⟩] []).1.mpr
    (Or.inr ⟨by decide, by decide⟩)

/-- The cell written by mean_analysis is the cluster_interaction_mean of
that cell, whenever row indices and columns are duplicate-free. -/
theorem mean_analysis_cell_eq (interactions : List Interaction)
    (cm : ℕ → ℕ → Flt) (cps : List (ℕ × ℕ)) (base : ℕ → ℕ × ℕ → Flt)
    (hidx : (interactions.map Interaction.idx).Nodup) (hcps : cps.Nodup)
    (it : Interaction) (hit : it ∈ interactions) (cp : ℕ × ℕ) (hcp : cp ∈ cps) :
    mean_analysis interactions cm cps base it.idx cp
      = cluster_interaction_mean cp it cm := by
  rw [mean_analysis_eq_writeFold]
  have hmem : (it, cp) ∈ interactions.flatMap
      (fun it2 => cps.map (fun cp2 => (it2, cp2))) := by
    simp only [List.mem_flatMap, List.mem_map]
    exact ⟨it, hit, cp, hcp, rfl⟩
  have hnd : ((interactions.flatMap (fun it2 => cps.map (fun cp2 => (it2, cp2)))).map
      (fun p : Interaction × (ℕ × ℕ) => (p.1.idx, p.2))).Nodup := by
    have heq : (interactions.flatMap (fun it2 => cps.map (fun cp2 => (it2, cp2)))).map
        (fun p : Interaction × (ℕ × ℕ) => (p.1.idx, p.2))
        = cellsOf (interactions.map Interaction.idx) cps := by
      simp only [cellsOf, List.map_flatMap, List.flatMap_map, List.map_map]
      rfl
    rw [heq]
    exact cellsOf_nodup _ cps hidx hcps
  exact writeFold_mem (fun p : Interaction × (ℕ × ℕ) => (p.1.idx, p.2))
    (fun p => cluster_interaction_mean p.2 p.1 cm) _ (it, cp) hmem hnd base

/-- C3, amended: an empty (cluster, group) cell subset makes every
per-gene mean NaN rather than an error; the log2 differential ratio is a
total operation that yields a non-finite value - NaN, minus infinity, or
(for a positive numerator over a zero denominator) plus infinity - when
the denominator mean is zero or the ratio is non-positive; and a NaN
differential mean on either side propagates unchanged through the
interaction scoring into the mean result cell. -/
theorem C3_empty_subset_nan_propagation
    (l2 : ℚ → ℚ) (meta : List MetaRow) (counts : CountsDF)
    (c : ℕ) (g : String) (hempty : cells_of_group meta c g = []) :
    (∀ p ∈ cluster_group_mean counts (cells_of_group meta c g), p.2 = Flt.nan)
    ∧ (∀ a : ℚ, Flt.flog2 l2 (Flt.fdiv (Flt.val a) (Flt.val 0))
        = if a = 0 then Flt.nan else if 0 < a then Flt.pinf else Flt.nan)
    ∧ (∀ a b : ℚ, b ≠ 0 → a / b < 0 →
        Flt.flog2 l2 (Flt.fdiv (Flt.val a) (Flt.val b)) = Flt.nan)
    ∧ (∀ a b : ℚ, b ≠ 0 → a / b = 0 →
        Flt.flog2 l2 (Flt.fdiv (Flt.val a) (Flt.val b)) = Flt.ninf)
    ∧ (∀ x : Flt, Flt.flog2 l2 (Flt.fdiv Flt.nan x) = Flt.nan)
    ∧ (∀ (interactions : List Interaction) (cm : ℕ → ℕ → Flt)
        (cps : List (ℕ × ℕ)) (base : ℕ → ℕ × ℕ → Flt) (it : Interaction)
        (cp : ℕ × ℕ), it ∈ interactions → cp ∈ cps →
        (interactions.map Interaction.idx).Nodup → cps.Nodup →
        (cm cp.1 it.e1 = Flt.nan ∨ cm cp.2 it.e2 = Flt.nan) →
        mean_analysis interactions cm cps base it.idx cp = Flt.nan) := by
  have hdiv : ∀ a b : ℚ, b ≠ 0 → Flt.fdiv (Flt.val a) (Flt.val b) = Flt.val (a / b) := by
    intro a b hb
    show (if b = 0 then if a = 0 then Flt.nan else if 0 < a then Flt.pinf else Flt.ninf
      else Flt.val (a / b)) = Flt.val (a / b)
    rw [if_neg hb]
  refine ⟨?_, ?_, ?_, ?_, ?_, ?_⟩
  · intro p hp
    rw [hempty] at hp
    unfold cluster_group_mean select_cells at hp
    simp only [List.map_map, List.mem_map] at hp
    rcases hp with ⟨gr, _, rfl⟩
    rfl
  · intro a
    have hd : Flt.fdiv (Flt.val a) (Flt.val 0)
        = if a = 0 then Flt.nan else if 0 < a then Flt.pinf else Flt.ninf := by
      show (if (0:ℚ) = 0 then if a = 0 then Flt.nan else if 0 < a then Flt.pinf else Flt.ninf
        else Flt.val (a / 0)) = _
      rw [if_pos rfl]
    rw [hd]
    by_cases ha : a = 0
    · rw [if_pos ha, if_pos ha]
      rfl
    · by_cases hpos : 0 < a
      · rw [if_neg ha, if_neg ha, if_pos hpos, if_pos hpos]
        rfl
      · rw [if_neg ha, if_neg ha, if_neg hpos, if_neg hpos]
        rfl
  · intro a b hb hr
    rw [hdiv a b hb]
    show (if a / b < 0 then Flt.nan else if a / b = 0 then Flt.ninf
      else Flt.val (l2 (a / b))) = Flt.nan
    rw [if_pos hr]
  · intro a b hb hr
    rw [hdiv a b hb]
    show (if a / b < 0 then Flt.nan else if a / b = 0 then Flt.ninf
      else Flt.val (l2 (a / b))) = Flt.ninf
    rw [if_neg (by rw [hr]; exact lt_irrefl 0), if_pos hr]
  · intro x
    cases x <;> rfl
  · intro interactions cm cps base it cp hit hcp hidx hcps hnan
    rw [mean_analysis_cell_eq interactions cm cps base hidx hcps it hit cp hcp]
    unfold cluster_interaction_mean
    rcases hnan with h | h
    · rw [h]
      cases cm cp.2 it.e2 <;> rfl
    · rw [h]
      cases cm cp.1 it.e1 <;> rfl

/-- Counterexample to C3 as stated: a positive tumor mean over a zero
normal mean makes the differential Series entry plus infinity, which is
neither NaN nor minus infinity. -/
theorem C3_counterexample :
    de_series (fun _ => 0) [(0, Flt.val 1)] [(0, Flt.val 0)] = [(0, Flt.pinf)]
    ∧ Flt.pinf ≠ Flt.nan ∧ Flt.pinf ≠ Flt.ninf := by
  refine ⟨?_, by decide, by decide⟩
  show [(0, Flt.flog2 _ (Flt.fdiv (Flt.val 1) (seriesAt [(0, Flt.val 0)] 0)))] = _
  rfl

/-- Witness for C3: a meta with no cells at all gives an empty subset for
cluster 0 and group tumor; the per-gene mean of the single gene row is
NaN, and the zero-over-zero ratio is NaN. -/
theorem C3_witness :
    (∀ p ∈ cluster_group_mean [(7, [])] (cells_of_group [] 0 ("tumor")),
      p.2 = Flt.nan)
    ∧ Flt.flog2 (fun _ => 0) (Flt.fdiv (Flt.val 0) (Flt.val 0))
      = if (0:ℚ) = 0 then Flt.nan else if 0 < (0:ℚ) then Flt.pinf else Flt.nan := by
  have h := C3_empty_subset_nan_propagation (fun _ => 0) [] [(7, [])] 0 ("tumor") rfl
  exact ⟨h.1, h.2.1 0⟩

theorem except_map_ok {a b : Type} (f : a → b) (x : a) :
    (f <$> (Except.ok x : Except PyErr a)) = Except.ok (f x) := rfl

/-- C5 failing input: one cluster, one gene, threshold one half, every
cell of both groups expressing nothing.  The spec-described flag (the
Series reading of counts_percent: fraction of positive cells 0, which is
below the threshold) is 1; the flag percent_analysis actually computes is
0, because its lambda ignores the gene row and passes the whole
(cluster, group) frame to counts_percent, making the fraction 1 for every
gene of a nonempty frame. -/
theorem C5_percent_flag_bug :
    percent_analysis_percents
      [((0, ("tumor")), [(0, [Flt.val 0, Flt.val 0])]),
       ((0, ("normal")), [(0, [Flt.val 0, Flt.val 0])])] [0] (1/2)
      = .ok [(0, [(0, 0)])]
    ∧ percent_flag_spec [Flt.val 0, Flt.val 0] (1/2) = .ok 1 := by
  constructor
  · norm_num [percent_analysis_percents, dictAt, alookup, counts_percent_on_frame,
      py_and, List.mapM, List.mapM.loop, List.foldlM, except_bind_ok, except_map_ok]
  · norm_num [percent_flag_spec, counts_percent, List.countP, List.countP.go, Flt.fgt]
